import Mathlib

/-!
Shallow embedding of the `clay` lexer (src/src/lexer/token.rs and
src/src/lexer/lexer.rs) and verification of the specification's claims
about it.

Modelling conventions:
* The Rust source addresses the input with `input.chars().nth(i)` (Unicode
  scalar index), so the input is modelled as a `List Char` and every index
  is a scalar-value index.  String slices `&input[a..b]` are byte-indexed
  in Rust; all inputs relevant to the claims are ASCII, where the two
  coincide, so slicing is modelled on the character list.  A Rust slice
  expression panics when `a > b` or `b > len`; this is modelled by
  `sliceRange` returning `none`, which the lexer turns into a panic result.
* Machine integers: `usize` values (`line`, `column`, `char`, the integer
  payload) only ever grow by `+1` from small starting points; overflow is
  unreachable for any input a `Vec`/`&str` can hold, so they are modelled
  as `Nat`.  The one place where the `usize` range matters is
  `str::parse::<usize>`, where the 64-bit bound is modelled explicitly.
* `f32` payloads: no claim depends on the floating-point value of a float
  literal, only on whether `str::parse::<f32>` succeeds, which for the
  scanned character set is a syntactic condition; the token payload
  therefore carries the numeric text and the parse is modelled as a
  syntactic test (see `parse_f32`).
* Rust `panic!` (and a panicking slice expression) is modelled by the
  `LexResult.panic` outcome.
* The recursion in `Iterator::next` (whitespace skipping and the three
  scanning loops) is embedded with explicit fuel; `LexResult.fuelOut`
  (resp. `none` for the loops) marks fuel exhaustion and is proved
  unreachable for fuel exceeding the remaining input length.
-/

/-- Source position, from `Position` in token.rs: 1-based `line`, 0-based
`column`, and `char`, the absolute character index into the input. -/
structure Position where
  line : Nat
  column : Nat
  char : Nat
deriving DecidableEq, Repr

/-- Token kinds, from the `TokenType` enum in token.rs.  `Integer` carries the
parsed `usize` value as a `Nat`; `Float` carries the scanned numeric text
(see the modelling note on `f32`); `String` and `Ident` carry the sliced
text as a character list. -/
inductive TokenType where
  | RParen
  | LParen
  | RBrace
  | LBrace
  | RBracket
  | LBracket
  | Percent
  | Plus
  | Minus
  | Slash
  | Asterisk
  | Equal
  | DoubleEqual
  | Bang
  | BangEqual
  | Period
  | Semicolon
  | Ampersand
  | And
  | Bar
  | Or
  | PlusEqual
  | MinusEqual
  | SlashEqual
  | AsteriskEqual
  | Integer (n : Nat)
  | Float (text : List Char)
  | String (text : List Char)
  | Ident (text : List Char)
  | Match
  | Import
deriving DecidableEq, Repr

/-- Keyword resolution, from `TokenType::match_keyword` in token.rs. -/
def TokenType.match_keyword (string : List Char) : TokenType :=
  if string = "match".toList then TokenType.Match
  else if string = "import".toList then TokenType.Import
  else TokenType.Ident string

/-- A classified token with the position recorded for it, from `Token` in
token.rs. -/
structure Token where
  kind : TokenType
  position : Position
deriving DecidableEq, Repr

/-- Lexer state, from `Lexer` in lexer.rs: the full input and the mutable
cursor.  Rust mutates `self.position`; here every operation returns the
updated state. -/
structure Lexer where
  input : List Char
  position : Position
deriving DecidableEq, Repr

/-- Constructor `Lexer::new`: cursor starts at line 1, column 0, char 0. -/
def Lexer.new (input : List Char) : Lexer :=
  { input := input, position := { line := 1, column := 0, char := 0 } }

/-- From `Lexer::consume_char`: advance `column` and `char` by one (the
caller separately adjusts `line`/`column` at newlines). -/
def Lexer.consume_char (l : Lexer) : Lexer :=
  { l with
    position := { l.position with
      column := l.position.column + 1
      char := l.position.char + 1 } }

/-- From `Lexer::get_nth_char`: `input.chars().nth(position)`. -/
def Lexer.get_nth_char (l : Lexer) (position : Nat) : Option Char :=
  l.input.get? position

/-- From `Lexer::get_current_char`. -/
def Lexer.get_current_char (l : Lexer) : Option Char :=
  l.input.get? l.position.char

/-- From `Lexer::get_peek_char`. -/
def Lexer.get_peek_char (l : Lexer) : Option Char :=
  l.input.get? (l.position.char + 1)

/-- Outcome of one `Iterator::next` call on the lexer.  `eof` is Rust's
`None`; `tok t st` is `Some(t)` together with the mutated lexer state;
`panic` models `panic!` and panicking slice expressions; `fuelOut` is an
artifact of the fuel embedding, proved unreachable for sufficient fuel. -/
inductive LexResult where
  | eof
  | tok (t : Token) (st : Lexer)
  | panic (msg : List Char)
  | fuelOut
deriving DecidableEq, Repr

/-- From `Lexer::lex_single_char`: record the pre-advance position, consume
one character, return the token. -/
def Lexer.lex_single_char (l : Lexer) (kind : TokenType) : LexResult :=
  let position := l.position
  let l := l.consume_char
  LexResult.tok { position := position, kind := kind } l

/-- From `Lexer::lex_double_char`: record the pre-advance position, consume
two characters, return the token. -/
def Lexer.lex_double_char (l : Lexer) (kind : TokenType) : LexResult :=
  let position := l.position
  let l := l.consume_char.consume_char
  LexResult.tok { position := position, kind := kind } l

/-- The local `enum NumberTypes` of the numeric-literal branch. -/
inductive NumberTypes where
  | Int
  | Float
deriving DecidableEq, Repr

/-- Rust slice expression `&input[a..b]` on character lists: the extracted
segment when `a ≤ b ≤ len`, otherwise `none` (Rust panics there). -/
def sliceRange (l : List Char) (a b : Nat) : Option (List Char) :=
  if a ≤ b ∧ b ≤ l.length then some ((l.take b).drop a) else none

/-- Numeric value of a digit string (left fold, as positional decimal). -/
def digitsVal (s : List Char) : Nat :=
  s.foldl (fun acc c => acc * 10 + (c.toNat - '0'.toNat)) 0

/-- Largest value of a 64-bit `usize`. -/
def USIZE_MAX : Nat := 2 ^ 64 - 1

/-- Models Rust's `str::parse::<usize>()` on the strings the number scanner
can produce (it also accepts a leading `+`, which the scanner never
emits): succeeds on a nonempty all-digit string whose value fits in a
64-bit `usize`, fails otherwise. -/
def parse_usize (s : List Char) : Option Nat :=
  if s ≠ [] ∧ ∀ c ∈ s, '0' ≤ c ∧ c ≤ '9' then
    if digitsVal s ≤ USIZE_MAX then some (digitsVal s) else none
  else none

/-- Models the success condition of Rust's `str::parse::<f32>()` on strings
of digits and decimal points (the only strings the number scanner can
produce); sign, exponent and `inf`/`NaN` forms never arise there.  Such a
string parses iff it is nonempty, not a lone `.`, and has at most one `.`;
`f32` parsing never fails on range (out-of-range values round to
infinity).  The parsed text itself is returned as the payload since no
claim depends on the floating-point value. -/
def parse_f32 (s : List Char) : Option (List Char) :=
  if s ≠ [] ∧ (∀ c ∈ s, ('0' ≤ c ∧ c ≤ '9') ∨ c = '.') ∧
      s.count '.' ≤ 1 ∧ s ≠ ['.'] then
    some s
  else none

/-- The `matches!(self.get_peek_char(), Some('0'..='9'))` guard of the
decimal-point arm in the numeric-literal loop. -/
def digitPeek : Option Char → Bool
  | some c => decide ('0' ≤ c ∧ c ≤ '9')
  | none => false

/-- The `None | Some(' ') | Some('\t') | Some('\r')` pattern shared by all
ambiguous-operator arms in lexer.rs. -/
def blankOrNone : Option Char → Bool
  | none => true
  | some c => decide (c = ' ' ∨ c = '\t' ∨ c = '\r')

/-- The digit-run loop of the numeric-literal branch (lines 139–152 of
lexer.rs), with fuel.  Accumulates scanned characters into `num`; a `.`
immediately followed by a digit is consumed and switches the literal type
to `Float`; any other character (or end of input) exits the loop.  Returns
`none` on fuel exhaustion. -/
def scanNumberF : Nat → Lexer → List Char → NumberTypes →
    Option (List Char × NumberTypes × Lexer)
  | 0, _, _, _ => none
  | fuel + 1, st, num, num_type =>
    match st.get_current_char with
    | some ch =>
      if '0' ≤ ch ∧ ch ≤ '9' then
        scanNumberF fuel st.consume_char (num ++ [ch]) num_type
      else if ch = '.' ∧ digitPeek st.get_peek_char then
        scanNumberF fuel st.consume_char (num ++ [ch]) NumberTypes.Float
      else
        some (num, num_type, st)
    | none => some (num, num_type, st)

/-- The string-literal loop (lines 175–189 of lexer.rs), with fuel.  `e`
is the mutable `end` variable (initialised to 0 by the caller): it is set
to the post-quote cursor only when a closing quote is found.  A newline
bumps `line`, zeroes `column`, and is then consumed like any other
character.  Returns the final `end` value and state, or `none` on fuel
exhaustion. -/
def scanStringF : Nat → Lexer → Nat → Option (Nat × Lexer)
  | 0, _, _ => none
  | fuel + 1, st, e =>
    match st.get_current_char with
    | some ch =>
      if ch = '"' then
        let st := st.consume_char
        some (st.position.char, st)
      else if ch = '\n' then
        let st := { st with position :=
          { st.position with line := st.position.line + 1, column := 0 } }
        scanStringF fuel st.consume_char e
      else
        scanStringF fuel st.consume_char e
    | none => some (e, st)

/-- The identifier loop (lines 198–205 of lexer.rs), with fuel: consume
ASCII letters and underscores; any other character (or end of input) exits
the loop.  (The loop never updates the `end` variable — that is the
source's end-offset defect.)  Returns `none` on fuel exhaustion. -/
def scanIdentF : Nat → Lexer → Option Lexer
  | 0, _ => none
  | fuel + 1, st =>
    match st.get_current_char with
    | some ch =>
      if ('A' ≤ ch ∧ ch ≤ 'Z') ∨ ('a' ≤ ch ∧ ch ≤ 'z') ∨ ch = '_' then
        scanIdentF fuel st.consume_char
      else
        some st
    | none => some st

/-- Characters remaining from the cursor to the end of the input. -/
def Lexer.remaining (st : Lexer) : Nat :=
  st.input.length - st.position.char

/-- The body of `Iterator::next` for `Lexer` (lines 53–225 of lexer.rs),
with fuel for the whitespace/newline self-recursion and the scanning
loops.  The branch structure follows the Rust `match` arm by arm; the
mutually exclusive character classes are rendered as an `if` chain in the
same order.  Local bindings of pure values (`peek_char`, the recorded
`position`, the initial `end` value 0, and the per-branch state updates)
are inlined with the state at their binding point, which leaves their
values unchanged.  The source's duplicate `'='` arm (lines 81–87) is unreachable
dead code and is noted here rather than duplicated. -/
def Lexer.nextF : Nat → Lexer → LexResult
  | 0, _ => LexResult.fuelOut
  | fuel + 1, st =>
    match st.get_current_char with
    | none => LexResult.eof
    | some current_char =>
      if current_char = '(' then st.lex_single_char TokenType.LParen
      else if current_char = ')' then st.lex_single_char TokenType.RParen
      else if current_char = '[' then st.lex_single_char TokenType.LBracket
      else if current_char = ']' then st.lex_single_char TokenType.RBracket
      else if current_char = '{' then st.lex_single_char TokenType.LBrace
      else if current_char = '}' then st.lex_single_char TokenType.RBrace
      else if current_char = '!' then
        if st.get_peek_char = some '=' then st.lex_double_char TokenType.BangEqual
        else if blankOrNone st.get_peek_char then st.lex_single_char TokenType.Bang
        else LexResult.panic "Undefined token.".toList
      else if current_char = '=' then
        -- the second, identical '=' arm in the source is unreachable
        if st.get_peek_char = some '=' then st.lex_double_char TokenType.DoubleEqual
        else if blankOrNone st.get_peek_char then st.lex_single_char TokenType.Equal
        else LexResult.panic "Undefined token.".toList
      else if current_char = '|' then
        if st.get_peek_char = some '|' then st.lex_double_char TokenType.Or
        else if blankOrNone st.get_peek_char then st.lex_single_char TokenType.Bar
        else LexResult.panic "Undefined token.".toList
      else if current_char = '&' then
        if st.get_peek_char = some '&' then st.lex_double_char TokenType.And
        else if blankOrNone st.get_peek_char then st.lex_single_char TokenType.Ampersand
        else LexResult.panic "Undefined token.".toList
      else if current_char = '+' then
        if st.get_peek_char = some '=' then st.lex_double_char TokenType.PlusEqual
        else if blankOrNone st.get_peek_char then st.lex_single_char TokenType.Plus
        else LexResult.panic "Undefined token.".toList
      else if current_char = '-' then
        if st.get_peek_char = some '=' then st.lex_double_char TokenType.MinusEqual
        else if blankOrNone st.get_peek_char then st.lex_single_char TokenType.Minus
        else LexResult.panic "Undefined token.".toList
      else if current_char = '/' then
        if st.get_peek_char = some '=' then st.lex_double_char TokenType.SlashEqual
        else if blankOrNone st.get_peek_char then st.lex_single_char TokenType.Slash
        else LexResult.panic "Undefined token.".toList
      else if current_char = '*' then
        if st.get_peek_char = some '=' then st.lex_double_char TokenType.AsteriskEqual
        else if blankOrNone st.get_peek_char then st.lex_single_char TokenType.Asterisk
        else LexResult.panic "Undefined token.".toList
      else if '0' ≤ current_char ∧ current_char ≤ '9' then
        match scanNumberF (fuel + 1) st [] NumberTypes.Int with
        | none => LexResult.fuelOut
        | some (num, num_type, st2) =>
          match num_type with
          | NumberTypes.Int =>
            match parse_usize num with
            | some n =>
              LexResult.tok { position := st.position, kind := TokenType.Integer n } st2
            | none => LexResult.panic "invalid digit found in string".toList
          | NumberTypes.Float =>
            match parse_f32 num with
            | some text =>
              LexResult.tok { position := st.position, kind := TokenType.Float text } st2
            | none => LexResult.panic "invalid float literal".toList
      else if current_char = '"' then
        match scanStringF (fuel + 1) st.consume_char 0 with
        | none => LexResult.fuelOut
        | some (e, st2) =>
          match sliceRange st2.input st.consume_char.position.char e with
          | some text =>
            LexResult.tok { kind := TokenType.String text, position := st2.position } st2
          | none => LexResult.panic "byte index out of bounds".toList
      else if ('a' ≤ current_char ∧ current_char ≤ 'z') ∨
          ('A' ≤ current_char ∧ current_char ≤ 'Z') ∨ current_char = '_' then
        match scanIdentF (fuel + 1) st with
        | none => LexResult.fuelOut
        | some st2 =>
          match sliceRange st2.input st.position.char 0 with
          | some slice =>
            LexResult.tok
              { kind := TokenType.match_keyword slice, position := st.position } st2
          | none => LexResult.panic "byte index out of bounds".toList
      else if current_char = '\n' then
        Lexer.nextF fuel
          ({ st with position := { st.position with
              line := st.position.line + 1, column := 0 } } : Lexer).consume_char
      else if current_char = ' ' ∨ current_char = '\t' ∨ current_char = '\r' then
        Lexer.nextF fuel st.consume_char
      else LexResult.panic "Undefined token.".toList

/-- One `Iterator::next` call, run with fuel one more than the remaining
input length (proved sufficient below). -/
def Lexer.next (st : Lexer) : LexResult :=
  Lexer.nextF (st.remaining + 1) st

/-! ### Statement vocabulary for the operator-disambiguation claim -/

/-- The eight ambiguous one-or-two-character operator characters of
classification step 3 (statement vocabulary for the operator claim). -/
def ambigChars : List Char := ['!', '=', '|', '&', '+', '-', '/', '*']

/-- For an ambiguous operator character, the lookahead character completing
the two-character operator, with the combined token kind. -/
def doubleOf : Char → Option (Char × TokenType)
  | '!' => some ('=', TokenType.BangEqual)
  | '=' => some ('=', TokenType.DoubleEqual)
  | '|' => some ('|', TokenType.Or)
  | '&' => some ('&', TokenType.And)
  | '+' => some ('=', TokenType.PlusEqual)
  | '-' => some ('=', TokenType.MinusEqual)
  | '/' => some ('=', TokenType.SlashEqual)
  | '*' => some ('=', TokenType.AsteriskEqual)
  | _ => none

/-- The single-character operator token kind for an ambiguous operator
character. -/
def singleOf : Char → Option TokenType
  | '!' => some TokenType.Bang
  | '=' => some TokenType.Equal
  | '|' => some TokenType.Bar
  | '&' => some TokenType.Ampersand
  | '+' => some TokenType.Plus
  | '-' => some TokenType.Minus
  | '/' => some TokenType.Slash
  | '*' => some TokenType.Asterisk
  | _ => none

/-! ### Basic cursor lemmas -/

theorem consume_char_input (l : Lexer) : l.consume_char.input = l.input := rfl

theorem consume_char_char (l : Lexer) :
    l.consume_char.position.char = l.position.char + 1 := rfl

theorem get_current_char_lt {l : Lexer} {c : Char}
    (h : l.get_current_char = some c) : l.position.char < l.input.length := by
  unfold Lexer.get_current_char at h
  rw [List.get?_eq_getElem?] at h
  exact (List.getElem?_eq_some.mp h).1

theorem remaining_pos {l : Lexer} {c : Char}
    (h : l.get_current_char = some c) : 1 ≤ l.remaining := by
  have := get_current_char_lt h
  unfold Lexer.remaining
  omega

theorem remaining_consume {l : Lexer} {c : Char}
    (h : l.get_current_char = some c) :
    l.consume_char.remaining + 1 = l.remaining := by
  have := get_current_char_lt h
  unfold Lexer.remaining Lexer.consume_char
  simp only
  omega

/-! ### Fuel sufficiency and fuel irrelevance for the scanning loops -/

theorem scanNumberF_fuel_irrel :
    ∀ fuel₁ fuel₂ st num ty, st.remaining < fuel₁ → st.remaining < fuel₂ →
      scanNumberF fuel₁ st num ty = scanNumberF fuel₂ st num ty := by
  intro fuel₁
  induction fuel₁ with
  | zero => intro fuel₂ st num ty h1 _; omega
  | succ f ih =>
    intro fuel₂ st num ty h1 h2
    obtain ⟨k, rfl⟩ : ∃ k, fuel₂ = k + 1 := ⟨fuel₂ - 1, by omega⟩
    unfold scanNumberF
    cases hc : st.get_current_char with
    | none => rfl
    | some ch =>
      have hrem := remaining_consume hc
      simp only
      by_cases hd : '0' ≤ ch ∧ ch ≤ '9'
      · rw [if_pos hd, if_pos hd]
        exact ih k st.consume_char _ _ (by omega) (by omega)
      · rw [if_neg hd, if_neg hd]
        by_cases he : ch = '.' ∧ digitPeek st.get_peek_char
        · rw [if_pos he, if_pos he]
          exact ih k st.consume_char _ _ (by omega) (by omega)
        · rw [if_neg he, if_neg he]

theorem scanNumberF_isSome :
    ∀ fuel st num ty, st.remaining < fuel → (scanNumberF fuel st num ty).isSome := by
  intro fuel
  induction fuel with
  | zero => intro st num ty h1; omega
  | succ f ih =>
    intro st num ty h1
    unfold scanNumberF
    cases hc : st.get_current_char with
    | none => rfl
    | some ch =>
      have hrem := remaining_consume hc
      simp only
      by_cases hd : '0' ≤ ch ∧ ch ≤ '9'
      · rw [if_pos hd]; exact ih st.consume_char _ _ (by omega)
      · rw [if_neg hd]
        by_cases he : ch = '.' ∧ digitPeek st.get_peek_char
        · rw [if_pos he]; exact ih st.consume_char _ _ (by omega)
        · rw [if_neg he]; rfl

theorem scanStringF_fuel_irrel :
    ∀ fuel₁ fuel₂ st e, st.remaining < fuel₁ → st.remaining < fuel₂ →
      scanStringF fuel₁ st e = scanStringF fuel₂ st e := by
  intro fuel₁
  induction fuel₁ with
  | zero => intro _ _ _ h1 _; omega
  | succ f ih =>
    intro fuel₂ st e h1 h2
    obtain ⟨k, rfl⟩ : ∃ k, fuel₂ = k + 1 := ⟨fuel₂ - 1, by omega⟩
    unfold scanStringF
    cases hc : st.get_current_char with
    | none => rfl
    | some ch =>
      have hrem := remaining_consume hc
      simp only
      by_cases hq : ch = '"'
      · rw [if_pos hq, if_pos hq]
      · rw [if_neg hq, if_neg hq]
        by_cases hn : ch = '\n'
        · rw [if_pos hn, if_pos hn]
          have hb : ({ input := st.input, position :=
              { line := st.position.line + 1, column := 0,
                char := st.position.char } } : Lexer).consume_char.remaining =
              st.consume_char.remaining := rfl
          exact ih k _ e (by omega) (by omega)
        · rw [if_neg hn, if_neg hn]
          exact ih k _ e (by omega) (by omega)

theorem scanStringF_isSome :
    ∀ fuel st e, st.remaining < fuel → (scanStringF fuel st e).isSome := by
  intro fuel
  induction fuel with
  | zero => intro _ _ h1; omega
  | succ f ih =>
    intro st e h1
    unfold scanStringF
    cases hc : st.get_current_char with
    | none => rfl
    | some ch =>
      have hrem := remaining_consume hc
      simp only
      by_cases hq : ch = '"'
      · rw [if_pos hq]; rfl
      · rw [if_neg hq]
        by_cases hn : ch = '\n'
        · rw [if_pos hn]
          have hb : ({ input := st.input, position :=
              { line := st.position.line + 1, column := 0,
                char := st.position.char } } : Lexer).consume_char.remaining =
              st.consume_char.remaining := rfl
          exact ih _ e (by omega)
        · rw [if_neg hn]; exact ih _ e (by omega)

theorem scanIdentF_fuel_irrel :
    ∀ fuel₁ fuel₂ st, st.remaining < fuel₁ → st.remaining < fuel₂ →
      scanIdentF fuel₁ st = scanIdentF fuel₂ st := by
  intro fuel₁
  induction fuel₁ with
  | zero => intro _ _ h1 _; omega
  | succ f ih =>
    intro fuel₂ st h1 h2
    obtain ⟨k, rfl⟩ : ∃ k, fuel₂ = k + 1 := ⟨fuel₂ - 1, by omega⟩
    unfold scanIdentF
    cases hc : st.get_current_char with
    | none => rfl
    | some ch =>
      have hrem := remaining_consume hc
      simp only
      by_cases hl : ('A' ≤ ch ∧ ch ≤ 'Z') ∨ ('a' ≤ ch ∧ ch ≤ 'z') ∨ ch = '_'
      · rw [if_pos hl, if_pos hl]
        exact ih k _ (by omega) (by omega)
      · rw [if_neg hl, if_neg hl]

theorem scanIdentF_isSome :
    ∀ fuel st, st.remaining < fuel → (scanIdentF fuel st).isSome := by
  intro fuel
  induction fuel with
  | zero => intro _ h1; omega
  | succ f ih =>
    intro st h1
    unfold scanIdentF
    cases hc : st.get_current_char with
    | none => rfl
    | some ch =>
      have hrem := remaining_consume hc
      simp only
      by_cases hl : ('A' ≤ ch ∧ ch ≤ 'Z') ∨ ('a' ≤ ch ∧ ch ≤ 'z') ∨ ch = '_'
      · rw [if_pos hl]; exact ih _ (by omega)
      · rw [if_neg hl]; rfl

/-! ### Characterisations of the scanning loops -/

theorem drop_cons_of_get {l : List Char} {n : Nat} {c : Char}
    (h : l.get? n = some c) : l.drop n = c :: l.drop (n + 1) := by
  rw [List.get?_eq_getElem?] at h
  obtain ⟨hlt, hc⟩ := List.getElem?_eq_some.mp h
  rw [List.drop_eq_getElem_cons hlt, hc]

theorem scanStringF_no_quote :
    ∀ fuel st e, st.remaining < fuel → '"' ∉ st.input.drop st.position.char →
      ∃ st2, scanStringF fuel st e = some (e, st2) := by
  intro fuel
  induction fuel with
  | zero => intro _ _ h1 _; omega
  | succ f ih =>
    intro st e h1 hq
    unfold scanStringF
    cases hc : st.get_current_char with
    | none => exact ⟨st, rfl⟩
    | some ch =>
      have hrem := remaining_consume hc
      have hdrop := drop_cons_of_get hc
      rw [hdrop] at hq
      simp only [List.mem_cons, not_or] at hq
      obtain ⟨hne, hrest⟩ := hq
      have hne' : ¬(ch = '"') := fun h => hne h.symm
      simp only
      rw [if_neg hne']
      by_cases hn : ch = '\n'
      · rw [if_pos hn]
        have hb : ({ input := st.input, position :=
            { line := st.position.line + 1, column := 0,
              char := st.position.char } } : Lexer).consume_char.remaining =
            st.consume_char.remaining := rfl
        exact ih _ e (by omega) hrest
      · rw [if_neg hn]
        exact ih _ e (by omega) hrest

theorem scanNumberF_spec :
    ∀ fuel st num ty num2 ty2 st2,
      scanNumberF fuel st num ty = some (num2, ty2, st2) →
      ∃ app, num2 = num ++ app ∧
        (∀ c ∈ app, ('0' ≤ c ∧ c ≤ '9') ∨ c = '.') ∧
        (ty2 = NumberTypes.Int → ty = NumberTypes.Int ∧ ∀ c ∈ app, '0' ≤ c ∧ c ≤ '9') := by
  intro fuel
  induction fuel with
  | zero => intro st num ty num2 ty2 st2 h; exact absurd h (by simp [scanNumberF])
  | succ f ih =>
    intro st num ty num2 ty2 st2 h
    unfold scanNumberF at h
    cases hc : st.get_current_char with
    | none =>
      rw [hc] at h
      simp only [Option.some.injEq, Prod.mk.injEq] at h
      obtain ⟨h1, h2, h3⟩ := h
      exact ⟨[], by simp [h1.symm], by simp, fun hty => ⟨h2 ▸ hty ▸ rfl, by simp⟩⟩
    | some ch =>
      rw [hc] at h
      simp only at h
      by_cases hd : '0' ≤ ch ∧ ch ≤ '9'
      · rw [if_pos hd] at h
        obtain ⟨app, happ, hall, hint⟩ := ih _ _ _ _ _ _ h
        refine ⟨ch :: app, by simpa using happ, ?_, ?_⟩
        · intro c hcmem
          rcases List.mem_cons.mp hcmem with rfl | hm
          · exact Or.inl hd
          · exact hall c hm
        · intro hty
          obtain ⟨hty2, hdig⟩ := hint hty
          refine ⟨hty2, ?_⟩
          intro c hcmem
          rcases List.mem_cons.mp hcmem with rfl | hm
          · exact hd
          · exact hdig c hm
      · rw [if_neg hd] at h
        by_cases he : ch = '.' ∧ digitPeek st.get_peek_char
        · rw [if_pos he] at h
          obtain ⟨app, happ, hall, hint⟩ := ih _ _ _ _ _ _ h
          refine ⟨ch :: app, by simpa using happ, ?_, ?_⟩
          · intro c hcmem
            rcases List.mem_cons.mp hcmem with rfl | hm
            · exact Or.inr he.1
            · exact hall c hm
          · intro hty
            exact absurd (hint hty).1 (by simp)
        · rw [if_neg he] at h
          simp only [Option.some.injEq, Prod.mk.injEq] at h
          obtain ⟨h1, h2, h3⟩ := h
          exact ⟨[], by simp [h1.symm], by simp, fun hty => ⟨h2 ▸ hty ▸ rfl, by simp⟩⟩

/-! ### Fuel sufficiency and fuel irrelevance for the production step -/

theorem remaining_consume_le (l : Lexer) : l.consume_char.remaining ≤ l.remaining := by
  unfold Lexer.remaining Lexer.consume_char
  simp only
  omega

theorem nextF_ne_fuelOut :
    ∀ fuel st, st.remaining < fuel → Lexer.nextF fuel st ≠ LexResult.fuelOut := by
  intro fuel st
  induction fuel, st using Lexer.nextF.induct
  all_goals intro h
  all_goals try (simp_all [Lexer.nextF, Lexer.lex_single_char, Lexer.lex_double_char]; done)
  case case33 fuel st c hcur n1 n2 n3 n4 n5 n6 n7 n8 n9 n10 n11 n12 n13 n14 hd hscan =>
    exact absurd hscan
      (Option.ne_none_iff_isSome.mpr (scanNumberF_isSome _ _ _ _ (by omega)))
  case case38 fuel st hscan hcur n1 n2 n3 n4 n5 n6 n7 n8 n9 n10 n11 n12 n13 n14 hd =>
    have hle := remaining_consume_le st
    exact absurd hscan
      (Option.ne_none_iff_isSome.mpr (scanStringF_isSome _ _ _ (by omega)))
  case case41 fuel st c hcur n1 n2 n3 n4 n5 n6 n7 n8 n9 n10 n11 n12 n13 n14 n15 n16 hid hscan =>
    exact absurd hscan
      (Option.ne_none_iff_isSome.mpr (scanIdentF_isSome _ _ (by omega)))
  case case42 fuel st c hcur n1 n2 n3 n4 n5 n6 n7 n8 n9 n10 n11 n12 n13 n14 n15 n16 hid st2 hscan text hslice =>
    simp [Lexer.nextF, hcur, hid, hscan, hslice,
      n1, n2, n3, n4, n5, n6, n7, n8, n9, n10, n11, n12, n13, n14, n15, n16]
  case case43 fuel st c hcur n1 n2 n3 n4 n5 n6 n7 n8 n9 n10 n11 n12 n13 n14 n15 n16 hid st2 hscan hslice =>
    simp [Lexer.nextF, hcur, hid, hscan, hslice,
      n1, n2, n3, n4, n5, n6, n7, n8, n9, n10, n11, n12, n13, n14, n15, n16]
  case case44 fuel st hcur n1 n2 n3 n4 n5 n6 n7 n8 n9 n10 n11 n12 n13 n14 n15 n16 n17 ih =>
    have hrem := remaining_consume hcur
    simp only [Lexer.nextF]
    simp [hcur]
    apply ih
    show st.consume_char.remaining < fuel
    omega
  case case45 fuel st c hcur n1 n2 n3 n4 n5 n6 n7 n8 n9 n10 n11 n12 n13 n14 n15 n16 n17 n18 hws ih =>
    have hrem := remaining_consume hcur
    simp [Lexer.nextF, hcur, hws,
      n1, n2, n3, n4, n5, n6, n7, n8, n9, n10, n11, n12, n13, n14, n15, n16, n17, n18]
    exact ih (by omega)
  case case46 fuel st c hcur n1 n2 n3 n4 n5 n6 n7 n8 n9 n10 n11 n12 n13 n14 n15 n16 n17 n18 n19 =>
    simp [Lexer.nextF, hcur,
      n1, n2, n3, n4, n5, n6, n7, n8, n9, n10, n11, n12, n13, n14, n15, n16, n17, n18, n19]

theorem nextF_fuel_irrel :
    ∀ fuel st, ∀ fuel₂, st.remaining < fuel → st.remaining < fuel₂ →
      Lexer.nextF fuel st = Lexer.nextF fuel₂ st := by
  intro fuel st
  induction fuel, st using Lexer.nextF.induct
  case case1 st => intro f2 h1 h2; exact absurd h1 (Nat.not_lt_zero _)
  all_goals intro f2 h1 h2
  all_goals obtain ⟨k, rfl⟩ : ∃ k, f2 = k + 1 := ⟨f2 - 1, by omega⟩
  all_goals try (simp_all [Lexer.nextF, Lexer.lex_single_char, Lexer.lex_double_char]; done)
  case case33.intro fuel st c hcur n1 n2 n3 n4 n5 n6 n7 n8 n9 n10 n11 n12 n13 n14 hd hscan =>
    exact absurd hscan
      (Option.ne_none_iff_isSome.mpr (scanNumberF_isSome _ _ _ _ (by omega)))
  case case34.intro fuel st c hcur n1 n2 n3 n4 n5 n6 n7 n8 n9 n10 n11 n12 n13 n14 hd num st2 n hparse hscan =>
    have hnum := scanNumberF_fuel_irrel (fuel + 1) (k + 1) st [] NumberTypes.Int
      (by omega) (by omega)
    simp [Lexer.nextF, hcur, hd, hscan, hparse, ← hnum,
      n1, n2, n3, n4, n5, n6, n7, n8, n9, n10, n11, n12, n13, n14]
  case case35.intro fuel st c hcur n1 n2 n3 n4 n5 n6 n7 n8 n9 n10 n11 n12 n13 n14 hd num st2 hparse hscan =>
    have hnum := scanNumberF_fuel_irrel (fuel + 1) (k + 1) st [] NumberTypes.Int
      (by omega) (by omega)
    simp [Lexer.nextF, hcur, hd, hscan, hparse, ← hnum,
      n1, n2, n3, n4, n5, n6, n7, n8, n9, n10, n11, n12, n13, n14]
  case case36.intro fuel st c hcur n1 n2 n3 n4 n5 n6 n7 n8 n9 n10 n11 n12 n13 n14 hd num st2 text hparse hscan =>
    have hnum := scanNumberF_fuel_irrel (fuel + 1) (k + 1) st [] NumberTypes.Int
      (by omega) (by omega)
    simp [Lexer.nextF, hcur, hd, hscan, hparse, ← hnum,
      n1, n2, n3, n4, n5, n6, n7, n8, n9, n10, n11, n12, n13, n14]
  case case37.intro fuel st c hcur n1 n2 n3 n4 n5 n6 n7 n8 n9 n10 n11 n12 n13 n14 hd num st2 hparse hscan =>
    have hnum := scanNumberF_fuel_irrel (fuel + 1) (k + 1) st [] NumberTypes.Int
      (by omega) (by omega)
    simp [Lexer.nextF, hcur, hd, hscan, hparse, ← hnum,
      n1, n2, n3, n4, n5, n6, n7, n8, n9, n10, n11, n12, n13, n14]
  case case38.intro fuel st hscan hcur n1 n2 n3 n4 n5 n6 n7 n8 n9 n10 n11 n12 n13 n14 hd =>
    have hle := remaining_consume_le st
    exact absurd hscan
      (Option.ne_none_iff_isSome.mpr (scanStringF_isSome _ _ _ (by omega)))
  case case39.intro fuel st e st2 hscan text hslice hcur n1 n2 n3 n4 n5 n6 n7 n8 n9 n10 n11 n12 n13 n14 hd =>
    have hle := remaining_consume_le st
    have hstr := scanStringF_fuel_irrel (fuel + 1) (k + 1) st.consume_char 0
      (by omega) (by omega)
    simp [Lexer.nextF, hcur, hd, hscan, hslice, ← hstr,
      n1, n2, n3, n4, n5, n6, n7, n8, n9, n10, n11, n12, n13, n14]
  case case40.intro fuel st e st2 hscan hslice hcur n1 n2 n3 n4 n5 n6 n7 n8 n9 n10 n11 n12 n13 n14 hd =>
    have hle := remaining_consume_le st
    have hstr := scanStringF_fuel_irrel (fuel + 1) (k + 1) st.consume_char 0
      (by omega) (by omega)
    simp [Lexer.nextF, hcur, hd, hscan, hslice, ← hstr,
      n1, n2, n3, n4, n5, n6, n7, n8, n9, n10, n11, n12, n13, n14]
  case case41.intro fuel st c hcur n1 n2 n3 n4 n5 n6 n7 n8 n9 n10 n11 n12 n13 n14 n15 n16 hid hscan =>
    exact absurd hscan
      (Option.ne_none_iff_isSome.mpr (scanIdentF_isSome _ _ (by omega)))
  case case42.intro fuel st c hcur n1 n2 n3 n4 n5 n6 n7 n8 n9 n10 n11 n12 n13 n14 n15 n16 hid st2 hscan text hslice =>
    have hident := scanIdentF_fuel_irrel (fuel + 1) (k + 1) st (by omega) (by omega)
    simp [Lexer.nextF, hcur, hid, hscan, hslice, ← hident,
      n1, n2, n3, n4, n5, n6, n7, n8, n9, n10, n11, n12, n13, n14, n15, n16]
  case case43.intro fuel st c hcur n1 n2 n3 n4 n5 n6 n7 n8 n9 n10 n11 n12 n13 n14 n15 n16 hid st2 hscan hslice =>
    have hident := scanIdentF_fuel_irrel (fuel + 1) (k + 1) st (by omega) (by omega)
    simp [Lexer.nextF, hcur, hid, hscan, hslice, ← hident,
      n1, n2, n3, n4, n5, n6, n7, n8, n9, n10, n11, n12, n13, n14, n15, n16]
  case case44.intro fuel st hcur n1 n2 n3 n4 n5 n6 n7 n8 n9 n10 n11 n12 n13 n14 n15 n16 n17 ih =>
    have hrem := remaining_consume hcur
    simp [Lexer.nextF, hcur]
    exact ih k (by show st.consume_char.remaining < fuel; omega)
      (by show st.consume_char.remaining < k; omega)
  case case45.intro fuel st c hcur n1 n2 n3 n4 n5 n6 n7 n8 n9 n10 n11 n12 n13 n14 n15 n16 n17 n18 hws ih =>
    have hrem := remaining_consume hcur
    simp [Lexer.nextF, hcur, hws,
      n1, n2, n3, n4, n5, n6, n7, n8, n9, n10, n11, n12, n13, n14, n15, n16, n17, n18]
    exact ih k (by omega) (by omega)
  case case46.intro fuel st c hcur n1 n2 n3 n4 n5 n6 n7 n8 n9 n10 n11 n12 n13 n14 n15 n16 n17 n18 n19 =>
    simp [Lexer.nextF, hcur,
      n1, n2, n3, n4, n5, n6, n7, n8, n9, n10, n11, n12, n13, n14, n15, n16, n17, n18, n19]

/-! ### Step lemmas for the whitespace-skipping recursion -/

theorem blankOrNone_cases {o : Option Char} (hb : blankOrNone o = true) :
    o = none ∨ o = some ' ' ∨ o = some '\t' ∨ o = some '\r' := by
  match o with
  | none => exact Or.inl rfl
  | some c =>
    rcases of_decide_eq_true hb with h | h | h
    · exact Or.inr (Or.inl (by rw [h]))
    · exact Or.inr (Or.inr (Or.inl (by rw [h])))
    · exact Or.inr (Or.inr (Or.inr (by rw [h])))

theorem step_ws {st : Lexer} {c : Char} (hc : st.get_current_char = some c)
    (hws : c = ' ' ∨ c = '\t' ∨ c = '\r') : st.next = st.consume_char.next := by
  have hrem := remaining_consume hc
  unfold Lexer.next
  rw [show st.remaining + 1 = st.consume_char.remaining + 1 + 1 from by omega]
  rcases hws with rfl | rfl | rfl <;> simp [Lexer.nextF, hc]

theorem step_nl {st : Lexer} (hc : st.get_current_char = some '\n') :
    st.next = ({ st with position := { st.position with
      line := st.position.line + 1, column := 0 } } : Lexer).consume_char.next := by
  have hrem := remaining_consume hc
  have hb : ({ st with position := { st.position with
      line := st.position.line + 1, column := 0 } } : Lexer).consume_char.remaining =
      st.consume_char.remaining := rfl
  unfold Lexer.next
  rw [hb, show st.remaining + 1 = st.consume_char.remaining + 1 + 1 from by omega]
  simp [Lexer.nextF, hc]

theorem nextF_progress :
    ∀ fuel st, st.remaining < fuel → ∀ c, st.get_current_char = some c →
      ¬(c = ' ' ∨ c = '\t' ∨ c = '\r' ∨ c = '\n') →
      Lexer.nextF fuel st ≠ LexResult.eof := by
  intro fuel st
  induction fuel, st using Lexer.nextF.induct
  all_goals intro h c hc hnws
  all_goals try (simp_all [Lexer.nextF, Lexer.lex_single_char, Lexer.lex_double_char]; done)
  case case41 fuel st c2 hcur n1 n2 n3 n4 n5 n6 n7 n8 n9 n10 n11 n12 n13 n14 n15 n16 hid hscan =>
    simp [Lexer.nextF, hcur, hscan, hid,
      n1, n2, n3, n4, n5, n6, n7, n8, n9, n10, n11, n12, n13, n14, n15, n16]
  case case42 fuel st c2 hcur n1 n2 n3 n4 n5 n6 n7 n8 n9 n10 n11 n12 n13 n14 n15 n16 hid st2 hscan text hslice =>
    simp [Lexer.nextF, hcur, hid, hscan, hslice,
      n1, n2, n3, n4, n5, n6, n7, n8, n9, n10, n11, n12, n13, n14, n15, n16]
  case case43 fuel st c2 hcur n1 n2 n3 n4 n5 n6 n7 n8 n9 n10 n11 n12 n13 n14 n15 n16 hid st2 hscan hslice =>
    simp [Lexer.nextF, hcur, hid, hscan, hslice,
      n1, n2, n3, n4, n5, n6, n7, n8, n9, n10, n11, n12, n13, n14, n15, n16]
  case case46 fuel st c2 hcur n1 n2 n3 n4 n5 n6 n7 n8 n9 n10 n11 n12 n13 n14 n15 n16 n17 n18 n19 =>
    simp [Lexer.nextF, hcur,
      n1, n2, n3, n4, n5, n6, n7, n8, n9, n10, n11, n12, n13, n14, n15, n16, n17, n18, n19]

theorem next_eof_iff_aux :
    ∀ (fuel : Nat) (st : Lexer), st.remaining < fuel →
      (st.next = LexResult.eof ↔
        ∀ c ∈ st.input.drop st.position.char,
          c = ' ' ∨ c = '\t' ∨ c = '\r' ∨ c = '\n') := by
  intro fuel
  induction fuel with
  | zero => intro st h; omega
  | succ f ih =>
    intro st h
    cases hc : st.get_current_char with
    | none =>
      have hlen : st.input.length ≤ st.position.char := by
        by_contra hcon
        push_neg at hcon
        rw [Lexer.get_current_char, List.get?_eq_getElem?,
          List.getElem?_eq_getElem hcon] at hc
        exact absurd hc (by simp)
      have hdrop : st.input.drop st.position.char = [] :=
        List.drop_eq_nil_of_le hlen
      constructor
      · intro _
        rw [hdrop]
        intro c hcm
        exact absurd hcm (List.not_mem_nil c)
      · intro _
        show Lexer.nextF (st.remaining + 1) st = LexResult.eof
        simp [Lexer.nextF, hc]
    | some c =>
      have hrem := remaining_consume hc
      have hdrop := drop_cons_of_get hc
      by_cases hws : c = ' ' ∨ c = '\t' ∨ c = '\r'
      · rw [step_ws hc hws, ih st.consume_char (by omega), hdrop,
          List.forall_mem_cons]
        have hpc : c = ' ' ∨ c = '\t' ∨ c = '\r' ∨ c = '\n' := by tauto
        constructor
        · intro hall
          exact ⟨hpc, hall⟩
        · intro hall
          exact hall.2
      · by_cases hnl : c = '\n'
        · subst hnl
          have hb : ({ st with position := { st.position with
              line := st.position.line + 1, column := 0 } } : Lexer).consume_char.remaining =
              st.consume_char.remaining := rfl
          rw [step_nl hc, ih _ (by rw [hb]; omega), hdrop, List.forall_mem_cons]
          constructor
          · intro hall
            exact ⟨by tauto, hall⟩
          · intro hall
            exact hall.2
        · have hnot : ¬(c = ' ' ∨ c = '\t' ∨ c = '\r' ∨ c = '\n') := by tauto
          constructor
          · intro he
            exact absurd he (nextF_progress (st.remaining + 1) st (by omega) c hc hnot)
          · intro hall
            exfalso
            exact hnot (hall c (hdrop ▸ List.mem_cons_self c _))

theorem match_keyword_not_punct (s : List Char) :
    TokenType.match_keyword s ≠ TokenType.Percent ∧
    TokenType.match_keyword s ≠ TokenType.Period ∧
    TokenType.match_keyword s ≠ TokenType.Semicolon := by
  unfold TokenType.match_keyword
  split
  · simp
  · split <;> simp

theorem nextF_tok_kinds :
    ∀ fuel (st : Lexer), ∀ t st2, Lexer.nextF fuel st = LexResult.tok t st2 →
      t.kind ≠ TokenType.Percent ∧ t.kind ≠ TokenType.Period ∧
      t.kind ≠ TokenType.Semicolon := by
  intro fuel st
  induction fuel, st using Lexer.nextF.induct
  all_goals intro t st2 ht
  all_goals try (simp_all [Lexer.nextF, Lexer.lex_single_char, Lexer.lex_double_char]; done)
  case case41 fuel st c2 hcur n1 n2 n3 n4 n5 n6 n7 n8 n9 n10 n11 n12 n13 n14 n15 n16 hid hscan =>
    simp [Lexer.nextF, hcur, hid, hscan,
      n1, n2, n3, n4, n5, n6, n7, n8, n9, n10, n11, n12, n13, n14, n15, n16] at ht
  case case42 fuel st c2 hcur n1 n2 n3 n4 n5 n6 n7 n8 n9 n10 n11 n12 n13 n14 n15 n16 hid stx hscan text hslice =>
    simp [Lexer.nextF, hcur, hid, hscan, hslice,
      n1, n2, n3, n4, n5, n6, n7, n8, n9, n10, n11, n12, n13, n14, n15, n16] at ht
    obtain ⟨rfl, rfl⟩ := ht
    exact match_keyword_not_punct _
  case case43 fuel st c2 hcur n1 n2 n3 n4 n5 n6 n7 n8 n9 n10 n11 n12 n13 n14 n15 n16 hid stx hscan hslice =>
    simp [Lexer.nextF, hcur, hid, hscan, hslice,
      n1, n2, n3, n4, n5, n6, n7, n8, n9, n10, n11, n12, n13, n14, n15, n16] at ht
  case case45 fuel st c2 hcur n1 n2 n3 n4 n5 n6 n7 n8 n9 n10 n11 n12 n13 n14 n15 n16 n17 n18 hws ih =>
    simp [Lexer.nextF, hcur, hws,
      n1, n2, n3, n4, n5, n6, n7, n8, n9, n10, n11, n12, n13, n14, n15, n16, n17, n18] at ht
    exact ih t st2 ht
  case case46 fuel st c2 hcur n1 n2 n3 n4 n5 n6 n7 n8 n9 n10 n11 n12 n13 n14 n15 n16 n17 n18 n19 =>
    simp [Lexer.nextF, hcur,
      n1, n2, n3, n4, n5, n6, n7, n8, n9, n10, n11, n12, n13, n14, n15, n16, n17, n18, n19] at ht
  all_goals simp_all [Lexer.nextF, Lexer.lex_single_char, Lexer.lex_double_char]
  all_goals obtain ⟨rfl, rfl⟩ := ht
  all_goals simp

/-! ### Digit characters are not special characters -/

theorem digit_not_special {c : Char} (hd : '0' ≤ c ∧ c ≤ '9') :
    c ≠ '(' ∧ c ≠ ')' ∧ c ≠ '[' ∧ c ≠ ']' ∧ c ≠ '{' ∧ c ≠ '}' ∧ c ≠ '!' ∧
    c ≠ '=' ∧ c ≠ '|' ∧ c ≠ '&' ∧ c ≠ '+' ∧ c ≠ '-' ∧ c ≠ '/' ∧ c ≠ '*' := by
  obtain ⟨h1, h2⟩ := hd
  refine ⟨?_, ?_, ?_, ?_, ?_, ?_, ?_, ?_, ?_, ?_, ?_, ?_, ?_, ?_⟩ <;>
    (rintro rfl; revert h1 h2; decide)

/-- C5 (amended): the final parse of a numeric-literal scan does not always
succeed — the parse-failure branch is reachable (see the counterexample,
where the scan consumes two decimal points and the `f32` parse of `1.2.3`
fails).  What does hold is the conditional stated here: the parse succeeds
— and the failure branch is avoided — whenever the integer value fits in a
64-bit `usize` (integer case) or at most one decimal point was consumed
(float case). -/
theorem c5_numeric_parse_conditional (st : Lexer) (c : Char)
    (hc : st.get_current_char = some c) (hd : '0' ≤ c ∧ c ≤ '9')
    (num : List Char) (ty : NumberTypes) (st2 : Lexer)
    (hscan : scanNumberF (st.remaining + 1) st [] NumberTypes.Int = some (num, ty, st2)) :
    (ty = NumberTypes.Int → digitsVal num ≤ USIZE_MAX →
      st.next = LexResult.tok
        { position := st.position, kind := TokenType.Integer (digitsVal num) } st2) ∧
    (ty = NumberTypes.Float → num.count '.' ≤ 1 →
      st.next = LexResult.tok
        { position := st.position, kind := TokenType.Float num } st2) := by
  have hstep := hscan
  unfold scanNumberF at hstep
  rw [hc] at hstep
  simp only at hstep
  rw [if_pos hd] at hstep
  obtain ⟨app, happ, hall, hint⟩ := scanNumberF_spec _ _ _ _ _ _ _ hstep
  have hcdot : c ≠ '.' := by
    rintro rfl
    exact absurd hd (by decide)
  constructor
  · rintro rfl hle
    obtain ⟨-, hdigs⟩ := hint rfl
    have hdig : ∀ x ∈ num, '0' ≤ x ∧ x ≤ '9' := by
      intro x hx
      rw [happ] at hx
      rcases List.mem_cons.mp hx with rfl | hm
      · exact hd
      · exact hdigs x hm
    have hne : num ≠ [] := by
      rw [happ]
      exact List.cons_ne_nil _ _
    have hparse : parse_usize num = some (digitsVal num) := by
      unfold parse_usize
      rw [if_pos ⟨hne, hdig⟩, if_pos hle]
    obtain ⟨e1, e2, e3, e4, e5, e6, e7, e8, e9, e10, e11, e12, e13, e14⟩ :=
      digit_not_special hd
    show Lexer.nextF (st.remaining + 1) st = _
    simp [Lexer.nextF, hc, hd, hscan, hparse,
      e1, e2, e3, e4, e5, e6, e7, e8, e9, e10, e11, e12, e13, e14]
  · rintro rfl hcount
    have hne : num ≠ [] := by
      rw [happ]
      exact List.cons_ne_nil _ _
    have hclass : ∀ x ∈ num, ('0' ≤ x ∧ x ≤ '9') ∨ x = '.' := by
      intro x hx
      rw [happ] at hx
      rcases List.mem_cons.mp hx with rfl | hm
      · exact Or.inl hd
      · exact hall x hm
    have hnedot : num ≠ ['.'] := by
      rw [happ]
      intro hbad
      simp only [List.nil_append, List.singleton_append, List.cons_eq_cons] at hbad
      exact hcdot hbad.1
    have hparse : parse_f32 num = some num := by
      unfold parse_f32
      rw [if_pos ⟨hne, hclass, hcount, hnedot⟩]
    obtain ⟨e1, e2, e3, e4, e5, e6, e7, e8, e9, e10, e11, e12, e13, e14⟩ :=
      digit_not_special hd
    show Lexer.nextF (st.remaining + 1) st = _
    simp [Lexer.nextF, hc, hd, hscan, hparse,
      e1, e2, e3, e4, e5, e6, e7, e8, e9, e10, e11, e12, e13, e14]

/-- C5 (counterexample): on input `1.2.3` the scan consumes the whole run
(each `.` is followed by a digit), and the `f32` parse of `1.2.3` fails, so
`next()` reaches the supposedly unreachable parse-failure branch and
panics. -/
theorem c5_counterexample_two_decimal_points :
    (Lexer.new "1.2.3".toList).next = LexResult.panic "invalid float literal".toList := by
  decide

/-- C5 (witness): the conditional-success theorem applied to the concrete
input `2.5`, whose scan consumes one decimal point. -/
theorem c5_witness_float_literal :
    (Lexer.new "2.5".toList).next =
      LexResult.tok
        { position := { line := 1, column := 0, char := 0 },
          kind := TokenType.Float "2.5".toList }
        { input := "2.5".toList, position := { line := 1, column := 3, char := 3 } } :=
  (c5_numeric_parse_conditional (Lexer.new "2.5".toList) '2' (by decide) (by decide)
    "2.5".toList NumberTypes.Float
    { input := "2.5".toList, position := { line := 1, column := 3, char := 3 } }
    (by decide)).2 rfl (by decide)

/-- C6 (amended): when end of input is reached while scanning a string
literal — no closing quote anywhere after the opening quote — `next()`
does not return a truncated String token: the `end` variable is still 0
while the slice's start index is past the opening quote (at least 1), so
the slice expression `input[position.char..0]` has start > end and the
program panics. -/
theorem c6_unterminated_string_panics (st : Lexer)
    (hc : st.get_current_char = some '"')
    (hnq : '"' ∉ st.input.drop (st.position.char + 1)) :
    st.next = LexResult.panic "byte index out of bounds".toList := by
  have hrem := remaining_consume hc
  have hle := remaining_consume_le st
  obtain ⟨st2, hs⟩ := scanStringF_no_quote (st.remaining + 1) st.consume_char 0
    (by omega) hnq
  have hslice : sliceRange st2.input st.consume_char.position.char 0 = none := by
    unfold sliceRange
    rw [if_neg]
    intro hcon
    have := hcon.1
    simp [Lexer.consume_char] at this
  show Lexer.nextF (st.remaining + 1) st = _
  simp [Lexer.nextF, hc, hs, hslice]

/-- C6 (counterexample): on the input consisting of a quote followed by
`hi` and end of input, `next()` panics on the out-of-range slice instead of
returning a String token with the truncated text `hi`. -/
theorem c6_counterexample_unterminated_string :
    (Lexer.new "\"hi".toList).next = LexResult.panic "byte index out of bounds".toList := by
  decide

/-- C6 (witness): the amended theorem applied to a concrete unterminated
multi-line string literal. -/
theorem c6_witness_unterminated_multiline :
    (Lexer.new "\"ab\ncd".toList).next =
      LexResult.panic "byte index out of bounds".toList :=
  c6_unterminated_string_panics (Lexer.new "\"ab\ncd".toList) (by decide) (by decide)

/-- C1 (code evaluation at the claimed inputs): on input `match` the single
produced token is `Ident("")` at offset 0 — not `Match` — because the
identifier branch never updates its `end` offset, so the slice
`input[0..0]` is empty and keyword resolution sees the empty string; on
input `foo_bar` the single produced token is likewise `Ident("")`, not
`Ident("foo_bar")`.  In both cases exactly one token is produced (the
following call returns end of input) at offset 0, but its kind contradicts
the claim. -/
theorem c1_keyword_and_identifier_eval :
    ((Lexer.new "match".toList).next =
        LexResult.tok
          { kind := TokenType.Ident [], position := { line := 1, column := 0, char := 0 } }
          { input := "match".toList, position := { line := 1, column := 5, char := 5 } } ∧
      ({ input := "match".toList,
         position := { line := 1, column := 5, char := 5 } } : Lexer).next = LexResult.eof) ∧
    ((Lexer.new "foo_bar".toList).next =
        LexResult.tok
          { kind := TokenType.Ident [], position := { line := 1, column := 0, char := 0 } }
          { input := "foo_bar".toList, position := { line := 1, column := 7, char := 7 } } ∧
      ({ input := "foo_bar".toList,
         position := { line := 1, column := 7, char := 7 } } : Lexer).next = LexResult.eof) ∧
    TokenType.Ident ([] : List Char) ≠ TokenType.Match ∧
    TokenType.Ident ([] : List Char) ≠ TokenType.Ident "foo_bar".toList := by
  decide

/-- C2 (code evaluation at the claimed input): on the input
quote-`hi`-newline-`there`-quote, the newline does bump `line` and reset
`column` without terminating the literal and the opening quote is not in
the token text, but the token text `hi\nthere"` includes the closing quote
and the reported position is the post-scan cursor (line 2, offset 10), not
the opening quote's position on line 1 — contradicting the claim's text
and position parts. -/
theorem c2_string_literal_eval :
    (Lexer.new "\"hi\nthere\"".toList).next =
      LexResult.tok
        { kind := TokenType.String "hi\nthere\"".toList,
          position := { line := 2, column := 7, char := 10 } }
        { input := "\"hi\nthere\"".toList,
          position := { line := 2, column := 7, char := 10 } } ∧
    TokenType.String "hi\nthere\"".toList ≠ TokenType.String "hi\nthere".toList := by
  decide

/-- C8 (code evaluation at the failing input): on input `"a"(` the String
token's recorded offset is the post-scan cursor 3, equal to the offset 3
of the following `(` token, although both tokens consumed at least one
character — so the offset sequence is not strictly increasing between
consuming tokens. -/
theorem c8_string_then_lparen_equal_offsets :
    (Lexer.new "\"a\"(".toList).next =
      LexResult.tok
        { kind := TokenType.String "a\"".toList,
          position := { line := 1, column := 3, char := 3 } }
        { input := "\"a\"(".toList, position := { line := 1, column := 3, char := 3 } } ∧
    ({ input := "\"a\"(".toList,
       position := { line := 1, column := 3, char := 3 } } : Lexer).next =
      LexResult.tok
        { kind := TokenType.LParen, position := { line := 1, column := 3, char := 3 } }
        { input := "\"a\"(".toList, position := { line := 1, column := 4, char := 4 } } := by
  decide

/-- C3: for every ambiguous operator character at the cursor (`!`, `=`,
`|`, `&`, `+`, `-`, `/`, `*`): if the one-character lookahead completes
the corresponding two-character operator, `next()` consumes both
characters and returns the combined token; if the lookahead is none,
blank, tab or carriage return, it consumes one character and returns the
single-character token; any other lookahead yields the fatal
undefined-token panic, with no single-character fallback. -/
theorem c3_ambiguous_operator_disambiguation (st : Lexer) (c : Char)
    (hc : st.get_current_char = some c) (hmem : c ∈ ambigChars) :
    (∀ d k, doubleOf c = some (d, k) → st.get_peek_char = some d →
      st.next = LexResult.tok { kind := k, position := st.position }
        st.consume_char.consume_char) ∧
    (∀ k, singleOf c = some k → blankOrNone st.get_peek_char = true →
      st.next = LexResult.tok { kind := k, position := st.position } st.consume_char) ∧
    (∀ p, st.get_peek_char = some p → (∀ d k, doubleOf c = some (d, k) → p ≠ d) →
      blankOrNone (some p) = false →
      st.next = LexResult.panic "Undefined token.".toList) := by
  fin_cases hmem
  all_goals refine ⟨fun d k hdk hpk => ?_, fun k hk hblank => ?_, fun p hp hnd hnb => ?_⟩
  all_goals first
    | (simp only [doubleOf, Option.some.injEq, Prod.mk.injEq] at hdk
       obtain ⟨rfl, rfl⟩ := hdk
       simp [Lexer.next, Lexer.nextF, hc, hpk, Lexer.lex_double_char])
    | (simp only [singleOf, Option.some.injEq] at hk
       subst hk
       rcases blankOrNone_cases hblank with hbc | hbc | hbc | hbc <;>
         simp [Lexer.next, Lexer.nextF, hc, hbc, Lexer.lex_single_char, blankOrNone])
    | (have hpd := hnd _ _ rfl
       simp [Lexer.next, Lexer.nextF, hc, hp, hpd, hnb])

/-- C3 (witness): the theorem applied to the concrete input `==`, which
lexes to a single `DoubleEqual` at offset 0 after consuming both
characters. -/
theorem c3_witness_double_equal :
    (Lexer.new "==".toList).next =
      LexResult.tok
        { kind := TokenType.DoubleEqual, position := { line := 1, column := 0, char := 0 } }
        (Lexer.new "==".toList).consume_char.consume_char :=
  (c3_ambiguous_operator_disambiguation (Lexer.new "==".toList) '='
      (by decide) (by decide)).1 '=' TokenType.DoubleEqual (by decide) (by decide)

/-- C4 (amended): `next()` returns end-of-input exactly when every
character from the cursor to the end of the input is a blank, tab,
carriage return or newline — in particular whenever the cursor is at or
past the end.  The original claim that a cursor strictly inside the input
never yields none fails on trailing whitespace (see the counterexample):
the whitespace-skipping recursion can run off the end of the input. -/
theorem c4_next_eof_iff_whitespace (st : Lexer) :
    st.next = LexResult.eof ↔
      ∀ c ∈ st.input.drop st.position.char,
        c = ' ' ∨ c = '\t' ∨ c = '\r' ∨ c = '\n' :=
  next_eof_iff_aux (st.remaining + 1) st (by omega)

/-- C4 (counterexample): on input consisting of one blank the cursor 0 is
strictly inside the input, yet `next()` returns none rather than a token
or a lexical error. -/
theorem c4_counterexample_trailing_blank :
    (Lexer.new " ".toList).position.char < (Lexer.new " ".toList).input.length ∧
      (Lexer.new " ".toList).next = LexResult.eof := by
  decide

/-- C4 (witness): the amended characterisation applied to the concrete
all-whitespace input blank-tab-newline. -/
theorem c4_witness_whitespace_input :
    (Lexer.new " \t\n".toList).next = LexResult.eof :=
  (c4_next_eof_iff_whitespace (Lexer.new " \t\n".toList)).mpr (by decide)

/-- C7: `match_keyword` is a pure total function: it maps the exact text
`match` to the `Match` variant, the exact text `import` to the `Import`
variant, and every other string to `Ident` carrying the same text. -/
theorem c7_match_keyword_total :
    TokenType.match_keyword "match".toList = TokenType.Match ∧
    TokenType.match_keyword "import".toList = TokenType.Import ∧
    ∀ s : List Char, s ≠ "match".toList → s ≠ "import".toList →
      TokenType.match_keyword s = TokenType.Ident s := by
  refine ⟨by decide, by decide, fun s h1 h2 => ?_⟩
  unfold TokenType.match_keyword
  rw [if_neg h1, if_neg h2]

/-- C7 (witness): the totality theorem applied to the concrete non-keyword
text `foo_bar`. -/
theorem c7_witness_ident :
    TokenType.match_keyword "foo_bar".toList = TokenType.Ident "foo_bar".toList :=
  c7_match_keyword_total.2.2 "foo_bar".toList (by decide) (by decide)

/-- C9: `next()` terminates on every finite input: with any fuel bound
exceeding the remaining input length, the fuelled production step never
exhausts its fuel and its result does not depend on the bound — it equals
`Lexer.next`, which runs with the canonical bound `remaining + 1`, linear
in the remaining input. -/
theorem c9_next_terminates (st : Lexer) (fuel : Nat) (h : st.remaining < fuel) :
    Lexer.nextF fuel st = st.next ∧ st.next ≠ LexResult.fuelOut := by
  constructor
  · exact nextF_fuel_irrel fuel st (st.remaining + 1) h (by omega)
  · exact nextF_ne_fuelOut (st.remaining + 1) st (by omega)

/-- C9 (witness): termination instantiated on the test input `1 + 2.3555`
with fuel 100. -/
theorem c9_witness_test_input :
    Lexer.nextF 100 (Lexer.new "1 + 2.3555".toList) =
        (Lexer.new "1 + 2.3555".toList).next ∧
      (Lexer.new "1 + 2.3555".toList).next ≠ LexResult.fuelOut :=
  c9_next_terminates (Lexer.new "1 + 2.3555".toList) 100 (by decide)

/-- C10: the lexer never produces a token of kind `Percent`, `Period` or
`Semicolon`, although the kinds exist in the token model; moreover when
the current character is `%`, `;` or a `.` (a `.` at the classification
stage, i.e. one not consumed as a decimal point), `next()` reaches the
fatal undefined-token branch. -/
theorem c10_never_percent_period_semicolon (st : Lexer) :
    (∀ t st2, st.next = LexResult.tok t st2 →
      t.kind ≠ TokenType.Percent ∧ t.kind ≠ TokenType.Period ∧
        t.kind ≠ TokenType.Semicolon) ∧
    (∀ c, st.get_current_char = some c → c = '%' ∨ c = ';' ∨ c = '.' →
      st.next = LexResult.panic "Undefined token.".toList) := by
  constructor
  · intro t st2 ht
    exact nextF_tok_kinds (st.remaining + 1) st t st2 ht
  · rintro c hc (rfl | rfl | rfl) <;> simp [Lexer.next, Lexer.nextF, hc]

/-- C10 (witness): the first part applied to the `(` token produced from
input `(`, and the second part applied to input `%`. -/
theorem c10_witness_lparen_percent :
    (TokenType.LParen ≠ TokenType.Percent ∧ TokenType.LParen ≠ TokenType.Period ∧
      TokenType.LParen ≠ TokenType.Semicolon) ∧
    (Lexer.new "%".toList).next = LexResult.panic "Undefined token.".toList :=
  ⟨(c10_never_percent_period_semicolon (Lexer.new "(".toList)).1
      { kind := TokenType.LParen, position := { line := 1, column := 0, char := 0 } }
      { input := "(".toList, position := { line := 1, column := 1, char := 1 } }
      (by decide),
    (c10_never_percent_period_semicolon (Lexer.new "%".toList)).2 '%'
      (by decide) (Or.inl rfl)⟩
